import Mathlib

/-!
Shallow embedding of the docstring-to-Markdown transpiler `_doc2md` from
`src/lazydocs/generation.py`, together with the regular-expression line
classifiers it uses (`_RE_BLOCKSTART_LIST`, `_RE_BLOCKSTART_TEXT`,
`_RE_QUOTE_TEXT`, `_RE_TYPED_ARGSTART`, `_RE_ARGSTART`).

Python string primitives (`str.lstrip`, `str.rstrip`, `str.strip`,
`str.split("\n")`, `str.splitlines`, `str.replace`, slicing, `"".join`) are
modelled over `List Char`, following Python's documented semantics.  The
regular expressions are modelled by the deterministic matching functions the
Python backtracking engine denotes on the newline-free lines produced by
`doc.split("\n")` (these are the only strings `_doc2md` ever feeds them).
-/

/-- Python `str.isspace` / default `strip` character class (Unicode whitespace
as recognised by CPython). -/
def pyIsSpace (c : Char) : Bool :=
  c = ' ' || c = '\t' || c = '\n' || c = '\r' || c = '\x0b' || c = '\x0c' ||
  c = '\x1c' || c = '\x1d' || c = '\x1e' || c = '\x1f' ||
  c = '\x85' || c = '\xa0' || c = '\u1680' ||
  (0x2000 ≤ c.val && c.val ≤ 0x200a) ||
  c = '\u2028' || c = '\u2029' || c = '\u202f' || c = '\u205f' || c = '\u3000'

/-- Line-boundary characters of Python `str.splitlines` (besides `"\r\n"`,
which is handled as a single boundary). -/
def isLineBoundary (c : Char) : Bool :=
  c = '\n' || c = '\r' || c = '\x0b' || c = '\x0c' ||
  c = '\x1c' || c = '\x1d' || c = '\x1e' ||
  c = '\x85' || c = '\u2028' || c = '\u2029'

/-- Character class `[\w\[\]_]` of `_RE_TYPED_ARGSTART` / `_RE_ARGSTART`
(ASCII reading of `\w`; every line the transpiler classifies in this
development is ASCII). -/
def wordChar (c : Char) : Bool :=
  c.isAlphanum || c = '_' || c = '[' || c = ']'

/-- Python `str.lstrip()`. -/
def pyLstrip (s : String) : String :=
  ⟨s.data.dropWhile pyIsSpace⟩

/-- Python `str.rstrip()` (also the per-line right-trim at the end of
`_doc2md`). -/
def pyRstrip (s : String) : String :=
  ⟨(s.data.reverse.dropWhile pyIsSpace).reverse⟩

/-- Python `str.strip()`. -/
def pyStrip (s : String) : String :=
  pyRstrip (pyLstrip s)

/-- Python `str.startswith`. -/
def pyStartsWith (s pre : String) : Bool :=
  pre.data.isPrefixOf s.data

/-- Python `str.endswith`. -/
def pyEndsWith (s suf : String) : Bool :=
  suf.data.isSuffixOf s.data

/-- Python slicing `s[n:]` (character based). -/
def pyDrop (s : String) (n : Nat) : String :=
  ⟨s.data.drop n⟩

/-- Python `" " * n`. -/
def spaces (n : Nat) : String :=
  ⟨List.replicate n ' '⟩

/-- `indent = len(line) - len(line.lstrip())` of `_doc2md`. -/
def indentOf (s : String) : Nat :=
  s.data.length - (s.data.dropWhile pyIsSpace).length

/-- Python `line.replace(">>>", "```")`: every non-overlapping occurrence of
`">>>"`, left to right, becomes `"```"`. -/
def replaceDoctestL : List Char → List Char
  | '>' :: '>' :: '>' :: rest => '`' :: '`' :: '`' :: replaceDoctestL rest
  | c :: rest => c :: replaceDoctestL rest
  | [] => []

/-- Python `line.replace(">>>", "```")` on strings. -/
def replaceDoctest (s : String) : String :=
  ⟨replaceDoctestL s.data⟩

/-- Python `line.replace("::", ":\n```")`: every non-overlapping occurrence of
`"::"`, left to right, becomes `":\n```"`. -/
def replaceLiteralL : List Char → List Char
  | ':' :: ':' :: rest => ':' :: '\n' :: '`' :: '`' :: '`' :: replaceLiteralL rest
  | c :: rest => c :: replaceLiteralL rest
  | [] => []

/-- Python `line.replace("::", ":\n```")` on strings. -/
def replaceLiteral (s : String) : String :=
  ⟨replaceLiteralL s.data⟩

/-- Python `doc.split("\n")` (single-character separator, empties kept). -/
def splitNlAux (acc : List Char) : List Char → List String
  | [] => [⟨acc.reverse⟩]
  | c :: rest =>
    if c = '\n' then ⟨acc.reverse⟩ :: splitNlAux [] rest
    else splitNlAux (c :: acc) rest

/-- Python `doc.split("\n")`. -/
def pySplitNl (s : String) : List String :=
  splitNlAux [] s.data

/-- Python `str.splitlines` worker: emit the accumulated line at every
boundary character, treating `"\r\n"` as one boundary; a final segment is
emitted only when nonempty. -/
def slAux (acc : List Char) : List Char → List String
  | [] => if acc.isEmpty then [] else [⟨acc.reverse⟩]
  | '\r' :: '\n' :: rest => ⟨acc.reverse⟩ :: slAux [] rest
  | c :: rest =>
    if isLineBoundary c then ⟨acc.reverse⟩ :: slAux [] rest
    else slAux (c :: acc) rest

/-- Python `str.splitlines()`. -/
def pySplitlines (s : String) : List String :=
  slAux [] s.data

/-- Python `"".join` / `sep.join` of a list of strings. -/
def pyJoin (sep : String) : List String → String
  | [] => ""
  | [x] => x
  | x :: y :: rest => x ++ sep ++ pyJoin sep (y :: rest)

/-- Substring test (used only to state claims about emitted output). -/
def hasSubstr (s pat : String) : Bool :=
  (List.range (s.data.length + 1)).any fun i => pat.data.isPrefixOf (s.data.drop i)

/-! ### The header regular expressions

`_RE_BLOCKSTART_LIST = (Args:|Arg:|Arguments:|Parameters:|Kwargs:|Attributes:|Returns:|Yields:|Kwargs:|Raises:).{0,2}$`,
`_RE_BLOCKSTART_TEXT = (Examples:|Example:|Todo:).{0,2}$`,
`_RE_QUOTE_TEXT = (Notes:|Note:).{0,2}$`, all `re.IGNORECASE`, used through
anchored `re.match`.  Such a pattern matches a string iff some alternative is
a case-insensitive prefix and the remainder after it, once a single final
`"\n"` is discounted (`$`), has at most two characters, none of them `"\n"`
(`.` does not match `"\n"`).  No two alternatives can be prefixes of the same
string, so the alternation order is irrelevant. -/

/-- The `.{0,2}$` tail condition of the three header regexes. -/
def headerTail (rest : List Char) : Bool :=
  let r := if rest.getLast? = some '\n' then rest.dropLast else rest
  r.length ≤ 2 && !r.contains '\n'

/-- Anchored, case-insensitive `re.match` of `(kw₁|kw₂|...).{0,2}$`. -/
def matchHeader (kws : List String) (line : String) : Bool :=
  kws.any fun kw =>
    kw.data.isPrefixOf (line.data.map Char.toLower) && headerTail (line.data.drop kw.length)

/-- Alternatives of `_RE_BLOCKSTART_LIST` (lower-cased; the source lists
`Kwargs:` twice). -/
def listHeaderKws : List String :=
  ["args:", "arg:", "arguments:", "parameters:", "kwargs:", "attributes:",
   "returns:", "yields:", "kwargs:", "raises:"]

/-- Alternatives of `_RE_BLOCKSTART_TEXT` (lower-cased). -/
def textHeaderKws : List String :=
  ["examples:", "example:", "todo:"]

/-- Alternatives of `_RE_QUOTE_TEXT` (lower-cased). -/
def quoteHeaderKws : List String :=
  ["notes:", "note:"]

/-- `_RE_BLOCKSTART_LIST.match(line)` as a Boolean. -/
def matchBlockstartList (line : String) : Bool :=
  matchHeader listHeaderKws line

/-- `_RE_BLOCKSTART_TEXT.match(line)` as a Boolean. -/
def matchBlockstartText (line : String) : Bool :=
  matchHeader textHeaderKws line

/-- `_RE_QUOTE_TEXT.match(line)` as a Boolean. -/
def matchQuoteText (line : String) : Bool :=
  matchHeader quoteHeaderKws line

/-! ### `_RE_TYPED_ARGSTART` and `_RE_ARGSTART`

`_RE_TYPED_ARGSTART = ([\w\[\]_]{1,}?)\s*?\((.*?)\):(.{2,})` and
`_RE_ARGSTART = (\**[\w\[\]_]{1,}?)\s*?:(.{2,})?`, anchored by `re.match`.
On a newline-free line the backtracking engine is forced into a unique
decomposition: the lazy first group must swallow the whole initial run of
word-class characters (a shorter group leaves a word character where `\s*?`
then `\(`/`:` is required), the lazy `\s*?` is the whitespace run up to the
first non-space character, which must be `(` resp. `:`, and for the typed
pattern the lazy `(.*?)\):` picks the earliest `"):"` after which at least
two characters remain for the greedy `.{2,}`. -/

/-- Scan for the earliest `"):"` that leaves at least two characters for
`.{2,}`; returns `(group2, group3)` of `_RE_TYPED_ARGSTART`.  `acc` holds the
reversed candidate `group2` swallowed so far. -/
def typedScan (acc : List Char) : List Char → Option (List Char × List Char)
  | [] => none
  | c :: rest =>
    if c = '\n' then none
    else if c = ')' then
      match rest with
      | ':' :: rest2 =>
        let g3 := rest2.takeWhile (fun d => d ≠ '\n')
        if 2 ≤ g3.length then some (acc.reverse, g3)
        else typedScan (c :: acc) rest
      | _ => typedScan (c :: acc) rest
    else typedScan (c :: acc) rest

/-- `_RE_TYPED_ARGSTART.match(line)`: groups `(name, type, description)`. -/
def typedArgMatch (line : String) : Option (String × String × String) :=
  let cs := line.data
  let g1 := cs.takeWhile wordChar
  if g1.isEmpty then none
  else
    let rest1 := cs.drop g1.length
    let rest2 := rest1.drop (rest1.takeWhile pyIsSpace).length
    match rest2 with
    | '(' :: afterParen =>
      match typedScan [] afterParen with
      | some (g2, g3) => some (⟨g1⟩, ⟨g2⟩, ⟨g3⟩)
      | none => none
    | _ => none

/-- `_RE_TYPED_ARGSTART.sub(r"<b>`\1`</b> (\2): \3", line)`.  On the
newline-free lines the transpiler feeds it, the single anchored match spans
the whole line (the greedy `.{2,}` runs to the end), so the substitution
rewrites the line into the template instantiated with the three groups. -/
def typedArgSub (line : String) : String :=
  match typedArgMatch line with
  | some (g1, g2, g3) => "<b>`" ++ g1 ++ "`</b> (" ++ g2 ++ "): " ++ g3
  | none => line

/-- `_RE_ARGSTART.match(line)`: group 1 (leading `*`s plus the word run) and
the text after the colon.  The optional `(.{2,})?` captures that text exactly
when it has at least two characters; the substitution template inserts it
either way (an unmatched group substitutes as `""`, and the uncaptured
remainder, at most one character, is copied verbatim and admits no further
match), so the tail is returned unsplit. -/
def argStartMatch (line : String) : Option (String × String) :=
  let cs := line.data
  let stars := cs.takeWhile (fun c => c = '*')
  let r1 := cs.drop stars.length
  let w := r1.takeWhile wordChar
  if w.isEmpty then none
  else
    let r2 := r1.drop w.length
    match r2.drop (r2.takeWhile pyIsSpace).length with
    | ':' :: tail => some (⟨stars ++ w⟩, ⟨tail⟩)
    | _ => none

/-- `_RE_ARGSTART.sub(r"<b>`\1`</b>: \2", line)` on the lines the transpiler
feeds it (see `argStartMatch`). -/
def argStartSub (line : String) : String :=
  match argStartMatch line with
  | some (g1, tail) => "<b>`" ++ g1 ++ "`</b>: " ++ tail
  | none => line

/-! ### The `_doc2md` state machine -/

/-- The mutable locals of `_doc2md` threaded through its `for` loop. -/
structure DocState where
  blockindent : Nat
  argindent : Nat
  out : List String
  arg_list : Bool
  literal_block : Bool
  md_code_snippet : Bool
  quote_block : Bool
  snippet_indent : Nat
deriving Repr, DecidableEq

/-- Initial values of the locals of `_doc2md`. -/
def initState : DocState :=
  { blockindent := 0, argindent := 1, out := [], arg_list := false,
    literal_block := false, md_code_snippet := false, quote_block := false,
    snippet_indent := 0 }

/-- The `if`/`elif` chain in the body of the `for` loop of `_doc2md`,
after the line has been left-stripped / prefix-sliced and the `">>>"`
rewriting applied.  Returns the updated state and the final value of the
`line` variable (the default branch reassigns it). -/
def branch (st : DocState) (indent : Nat) (line : String) : DocState × String :=
  if matchBlockstartList line || matchBlockstartText line || matchQuoteText line then
    let out1 := if st.literal_block then st.out ++ ["```\n"] else st.out
    let out2 := out1 ++ ["\n\n**" ++ pyStrip line ++ "**\n"]
    let isQuote := matchQuoteText line
    ({ st with blockindent := indent,
               quote_block := isQuote,
               literal_block := false,
               arg_list := matchBlockstartList line,
               out := if isQuote then out2 ++ ["\n>"] else out2 }, line)
  else if pyStartsWith (pyStrip line) "```" then
    if st.md_code_snippet then
      ({ st with md_code_snippet := false, snippet_indent := 0,
                 out := st.out ++ [line] }, line)
    else
      ({ st with md_code_snippet := true, snippet_indent := indent,
                 out := st.out ++ ["\n", line] }, line)
  else if pyEndsWith (pyStrip line) "::" then
    ({ st with literal_block := true,
               out := st.out ++ [replaceLiteral line] }, line)
  else if st.quote_block then
    ({ st with out := st.out ++ [pyStrip line ++ " "] }, line)
  else if pyStartsWith (pyStrip line) "-" then
    ({ st with out := st.out ++ ["\n" ++ spaces indent ++ line] }, line)
  else if st.blockindent < indent then
    if st.arg_list && !st.literal_block && (typedArgMatch line).isSome then
      ({ st with argindent := indent,
                 out := st.out ++ ["\n" ++ spaces st.blockindent ++ " - " ++ typedArgSub line] },
       line)
    else if st.arg_list && !st.literal_block && (argStartMatch line).isSome then
      ({ st with argindent := indent,
                 out := st.out ++ ["\n" ++ spaces st.blockindent ++ " - " ++ argStartSub line] },
       line)
    else if st.arg_list && st.argindent < indent then
      ({ st with out := st.out ++ [" " ++ line] }, line)
    else
      ({ st with out := st.out ++ [line] }, line)
  else
    let brk := pyStrip line ≠ "" && st.literal_block
    let line1 := if brk then "```\n" ++ line else line
    let lit1 := if brk then false else st.literal_block
    let line2 := if !lit1 then line1 ++ " " else line1
    ({ st with literal_block := lit1, out := st.out ++ [line2] }, line2)

/-- The three trailing `out.append`s at the bottom of the loop body, which
read the (possibly reassigned) `line` and the updated flags. -/
def trailing (st : DocState) (line : String) : DocState :=
  if st.md_code_snippet then { st with out := st.out ++ ["\n"] }
  else if pyStrip line = "" && !st.quote_block then { st with out := st.out ++ ["\n\n"] }
  else if line = "" && st.quote_block then { st with out := st.out ++ ["\n>"] }
  else st

/-- One iteration of the `for line in doc.split("\n")` loop of `_doc2md`. -/
def step (st : DocState) (raw : String) : DocState :=
  let indent := indentOf raw
  let line0 :=
    if !st.md_code_snippet && !st.literal_block then pyLstrip raw
    else pyDrop raw st.snippet_indent
  let line :=
    if pyStartsWith line0 ">>>" then replaceDoctest line0 ++ "```" else line0
  let p := branch st indent line
  trailing p.1 p.2

/-- The final assembly of `_doc2md`:
`"\n".join(line.rstrip() for line in "".join(out).splitlines())`. -/
def finishOut (out : List String) : String :=
  pyJoin "\n" ((pySplitlines (pyJoin "" out)).map pyRstrip)

/-- The loop and final assembly of `_doc2md`, taking the already-split list
of physical lines (`doc.split("\n")`). -/
def doc2mdLines (lines : List String) : String :=
  finishOut (lines.foldl step initState).out

/-- `_doc2md` on the docstring text (the function's `doc` local; the
reflective wrapper `_get_docstring` merely fetches this string from the
object and is not part of the transpiler proper). -/
def doc2md (doc : String) : String :=
  doc2mdLines (pySplitNl doc)

/-! ### Side conditions and reference shapes used in the specification
statements below -/

/-- A physical line carrying none of the markers the line classifier of
`_doc2md` reacts to: no leading whitespace, no `">>>"` doctest marker, no
recognised section header, no triple-backtick fence, no trailing `"::"`, and
no leading `"-"` bullet. -/
def plainLineCond (l : String) : Prop :=
  pyLstrip l = l ∧ pyStartsWith l ">>>" = false ∧
  matchBlockstartList l = false ∧ matchBlockstartText l = false ∧
  matchQuoteText l = false ∧ pyStartsWith (pyStrip l) "```" = false ∧
  pyEndsWith (pyStrip l) "::" = false ∧ pyStartsWith (pyStrip l) "-" = false

instance (l : String) : Decidable (plainLineCond l) := by
  unfold plainLineCond
  infer_instance

/-- The fragments one loop iteration of `_doc2md` appends for a line
satisfying `plainLineCond` (see `step_plain` below), accumulated over a list
of lines. -/
def plainFrags : List String → List String
  | [] => []
  | l :: rest => (if l = "" then [" ", "\n\n"] else [l ++ " "]) ++ plainFrags rest

/-- The physical lines of a list of paragraphs: paragraphs separated by
single blank lines. -/
def parLines : List (List String) → List String
  | [] => []
  | [p] => p
  | p :: q :: rest => p ++ [""] ++ parLines (q :: rest)

/-- Reference shape for the output of `_doc2md` on marker-free paragraphs:
each paragraph space-joined and right-stripped, consecutive paragraphs
separated by a blank output line. -/
def rstripParLines : List (List String) → List String
  | [] => []
  | [p] => [pyRstrip (pyJoin " " p)]
  | p :: q :: rest => pyRstrip (pyJoin " " p) :: "" :: rstripParLines (q :: rest)

/-! ### Basic lemmas about the Python string primitives -/

theorem pyIsSpace_space : pyIsSpace ' ' = true := by decide

theorem length_dropWhile_le (p : Char → Bool) (l : List Char) :
    (l.dropWhile p).length ≤ l.length := by
  induction l with
  | nil => simp
  | cons c cs ih =>
    rw [List.dropWhile_cons]
    split
    · exact Nat.le_succ_of_le ih
    · simp

theorem dropWhile_replicate_space (i : Nat) (l : List Char) :
    (List.replicate i ' ' ++ l).dropWhile pyIsSpace = l.dropWhile pyIsSpace := by
  induction i with
  | zero => simp
  | succ n ih => rw [List.replicate_succ, List.cons_append, List.dropWhile_cons, pyIsSpace_space]; simpa

theorem pyLstrip_spaces_append (i : Nat) (s : String) :
    pyLstrip (spaces i ++ s) = pyLstrip s := by
  apply String.ext
  show ((spaces i ++ s).data.dropWhile pyIsSpace) = s.data.dropWhile pyIsSpace
  rw [String.data_append]
  exact dropWhile_replicate_space i s.data

theorem indentOf_spaces_append (i : Nat) (s : String) :
    indentOf (spaces i ++ s) = i + indentOf s := by
  unfold indentOf
  rw [String.data_append]
  show (List.replicate i ' ' ++ s.data).length -
      ((List.replicate i ' ' ++ s.data).dropWhile pyIsSpace).length = _
  rw [dropWhile_replicate_space, List.length_append, List.length_replicate]
  have := length_dropWhile_le pyIsSpace s.data
  omega

theorem pyStrip_eq_empty_iff (s : String) :
    pyStrip s = "" ↔ ∀ c ∈ s.data, pyIsSpace c = true := by
  show (pyRstrip (pyLstrip s)) = "" ↔ _
  unfold pyRstrip pyLstrip
  constructor
  · intro h c hc
    have hdata : (((s.data.dropWhile pyIsSpace).reverse.dropWhile pyIsSpace).reverse) = [] := by
      have := congrArg String.data h
      simpa using this
    rw [List.reverse_eq_nil_iff, List.dropWhile_eq_nil_iff] at hdata
    by_contra hns
    have hmem : c ∈ s.data.dropWhile pyIsSpace := by
      by_contra hnm
      have : c ∈ s.data.takeWhile pyIsSpace := by
        have := List.takeWhile_append_dropWhile (p := pyIsSpace) (l := s.data)
        rw [← this] at hc
        rcases List.mem_append.mp hc with h1 | h1
        · exact h1
        · exact absurd h1 hnm
      exact hns (List.mem_takeWhile_imp this)
    exact hns (hdata c (List.mem_reverse.mpr hmem))
  · intro h
    apply String.ext
    show ((s.data.dropWhile pyIsSpace).reverse.dropWhile pyIsSpace).reverse = ("" : String).data
    have h1 : s.data.dropWhile pyIsSpace = [] :=
      List.dropWhile_eq_nil_iff.mpr fun c hc => h c hc
    simp [h1]

theorem pyStrip_append_space_eq_empty_iff (s : String) :
    pyStrip (s ++ " ") = "" ↔ pyStrip s = "" := by
  rw [pyStrip_eq_empty_iff, pyStrip_eq_empty_iff, String.data_append]
  constructor
  · intro h c hc
    exact h c (List.mem_append.mpr (Or.inl hc))
  · intro h c hc
    rcases List.mem_append.mp hc with h1 | h1
    · exact h c h1
    · have hsp : (" " : String).data = [' '] := rfl
      rw [hsp, List.mem_singleton] at h1
      subst h1
      decide

/-! ### Characterisations of single loop iterations of `_doc2md`

Each lemma fixes the branch of the `if`/`elif` chain a line falls into by
hypotheses on the current state and the (left-stripped) line, and gives the
resulting state.  They are proved by unfolding one iteration. -/

theorem pyStrip_lstrip_eq_empty (raw : String) (h : pyStrip (pyLstrip raw) = "") :
    pyLstrip raw = "" := by
  rw [pyStrip_eq_empty_iff] at h
  apply String.ext
  show raw.data.dropWhile pyIsSpace = []
  cases hd : raw.data.dropWhile pyIsSpace with
  | nil => rfl
  | cons c cs =>
    exfalso
    have hc : pyIsSpace c = false := by
      have := List.head?_dropWhile_not pyIsSpace raw.data
      rw [hd] at this
      simpa using this
    have hmem : c ∈ (pyLstrip raw).data := by
      show c ∈ raw.data.dropWhile pyIsSpace
      rw [hd]; exact List.mem_cons_self c cs
    rw [h c hmem] at hc
    exact absurd hc (by decide)

/-- A line that reaches the default (plain-text) branch with no open literal
block: the loop appends the left-stripped line plus a forced trailing space,
and a paragraph break when the line is blank. -/
theorem step_plain (st : DocState) (raw : String)
    (hmd : st.md_code_snippet = false) (hlit : st.literal_block = false)
    (hq : st.quote_block = false)
    (hgg : pyStartsWith (pyLstrip raw) ">>>" = false)
    (hh1 : matchBlockstartList (pyLstrip raw) = false)
    (hh2 : matchBlockstartText (pyLstrip raw) = false)
    (hh3 : matchQuoteText (pyLstrip raw) = false)
    (hfc : pyStartsWith (pyStrip (pyLstrip raw)) "```" = false)
    (hlb : pyEndsWith (pyStrip (pyLstrip raw)) "::" = false)
    (hbu : pyStartsWith (pyStrip (pyLstrip raw)) "-" = false)
    (hin : indentOf raw ≤ st.blockindent) :
    step st raw =
      { st with out := st.out ++
          (if pyStrip (pyLstrip raw) = "" then [pyLstrip raw ++ " ", "\n\n"]
           else [pyLstrip raw ++ " "]) } := by
  have hnotlt : ¬ st.blockindent < indentOf raw := Nat.not_lt.mpr hin
  have e1 : pyStartsWith "" "```" = false := by decide
  have e2 : pyEndsWith "" "::" = false := by decide
  have e3 : pyStartsWith "" "-" = false := by decide
  by_cases hbl : pyStrip (pyLstrip raw) = ""
  · simp [step, branch, trailing, hmd, hlit, hq, hgg, hh1, hh2, hh3, hfc, hlb, hbu, hnotlt,
      hbl, e1, e2, e3, (pyStrip_append_space_eq_empty_iff (pyLstrip raw)).mpr hbl]
  · have hbl2 : ¬ pyStrip (pyLstrip raw ++ " ") = "" :=
      fun h => hbl ((pyStrip_append_space_eq_empty_iff (pyLstrip raw)).mp h)
    simp [step, branch, trailing, hmd, hlit, hq, hgg, hh1, hh2, hh3, hfc, hlb, hbu, hnotlt,
      hbl, hbl2]

/-- An open argument list, a deeper-indented line matching
`_RE_TYPED_ARGSTART`: a new typed-argument bullet is emitted and the
argument indent recorded. -/
theorem step_arg_typed (st : DocState) (raw : String)
    (hmd : st.md_code_snippet = false) (hlit : st.literal_block = false)
    (hq : st.quote_block = false) (harg : st.arg_list = true)
    (hgg : pyStartsWith (pyLstrip raw) ">>>" = false)
    (hh1 : matchBlockstartList (pyLstrip raw) = false)
    (hh2 : matchBlockstartText (pyLstrip raw) = false)
    (hh3 : matchQuoteText (pyLstrip raw) = false)
    (hfc : pyStartsWith (pyStrip (pyLstrip raw)) "```" = false)
    (hlb : pyEndsWith (pyStrip (pyLstrip raw)) "::" = false)
    (hbu : pyStartsWith (pyStrip (pyLstrip raw)) "-" = false)
    (hlt : st.blockindent < indentOf raw)
    (hty : (typedArgMatch (pyLstrip raw)).isSome = true)
    (hne : pyStrip (pyLstrip raw) ≠ "") :
    step st raw =
      { st with argindent := indentOf raw,
                out := st.out ++
                  ["\n" ++ spaces st.blockindent ++ " - " ++ typedArgSub (pyLstrip raw)] } := by
  simp [step, branch, trailing, hmd, hlit, hq, harg, hgg, hh1, hh2, hh3, hfc, hlb, hbu,
    hlt, hty, hne]

/-- An open argument list, a deeper-indented line matching `_RE_ARGSTART`
but not `_RE_TYPED_ARGSTART`: a new bare-argument bullet is emitted. -/
theorem step_arg_bare (st : DocState) (raw : String)
    (hmd : st.md_code_snippet = false) (hlit : st.literal_block = false)
    (hq : st.quote_block = false) (harg : st.arg_list = true)
    (hgg : pyStartsWith (pyLstrip raw) ">>>" = false)
    (hh1 : matchBlockstartList (pyLstrip raw) = false)
    (hh2 : matchBlockstartText (pyLstrip raw) = false)
    (hh3 : matchQuoteText (pyLstrip raw) = false)
    (hfc : pyStartsWith (pyStrip (pyLstrip raw)) "```" = false)
    (hlb : pyEndsWith (pyStrip (pyLstrip raw)) "::" = false)
    (hbu : pyStartsWith (pyStrip (pyLstrip raw)) "-" = false)
    (hlt : st.blockindent < indentOf raw)
    (hty : typedArgMatch (pyLstrip raw) = none)
    (hba : (argStartMatch (pyLstrip raw)).isSome = true)
    (hne : pyStrip (pyLstrip raw) ≠ "") :
    step st raw =
      { st with argindent := indentOf raw,
                out := st.out ++
                  ["\n" ++ spaces st.blockindent ++ " - " ++ argStartSub (pyLstrip raw)] } := by
  simp [step, branch, trailing, hmd, hlit, hq, harg, hgg, hh1, hh2, hh3, hfc, hlb, hbu,
    hlt, hty, hba, hne]

/-- An open argument list, a line indented deeper than the current argument
that matches neither argument pattern: appended, space-prefixed, to the
output, with no new bullet. -/
theorem step_arg_continuation (st : DocState) (raw : String)
    (hmd : st.md_code_snippet = false) (hlit : st.literal_block = false)
    (hq : st.quote_block = false) (harg : st.arg_list = true)
    (hgg : pyStartsWith (pyLstrip raw) ">>>" = false)
    (hh1 : matchBlockstartList (pyLstrip raw) = false)
    (hh2 : matchBlockstartText (pyLstrip raw) = false)
    (hh3 : matchQuoteText (pyLstrip raw) = false)
    (hfc : pyStartsWith (pyStrip (pyLstrip raw)) "```" = false)
    (hlb : pyEndsWith (pyStrip (pyLstrip raw)) "::" = false)
    (hbu : pyStartsWith (pyStrip (pyLstrip raw)) "-" = false)
    (hlt : st.blockindent < indentOf raw)
    (hty : typedArgMatch (pyLstrip raw) = none)
    (hba : argStartMatch (pyLstrip raw) = none)
    (hai : st.argindent < indentOf raw)
    (hne : pyStrip (pyLstrip raw) ≠ "") :
    step st raw = { st with out := st.out ++ [" " ++ pyLstrip raw] } := by
  simp [step, branch, trailing, hmd, hlit, hq, harg, hgg, hh1, hh2, hh3, hfc, hlb, hbu,
    hlt, hty, hba, hai, hne]

/-- An open literal block and a non-blank line at indentation not exceeding
`blockindent` that reaches the default branch: the literal block is closed by
prefixing a closing fence to the line. -/
theorem step_literal_close (st : DocState) (raw : String)
    (hmd : st.md_code_snippet = false) (hlit : st.literal_block = true)
    (hq : st.quote_block = false)
    (hgg : pyStartsWith (pyDrop raw st.snippet_indent) ">>>" = false)
    (hh1 : matchBlockstartList (pyDrop raw st.snippet_indent) = false)
    (hh2 : matchBlockstartText (pyDrop raw st.snippet_indent) = false)
    (hh3 : matchQuoteText (pyDrop raw st.snippet_indent) = false)
    (hfc : pyStartsWith (pyStrip (pyDrop raw st.snippet_indent)) "```" = false)
    (hlb : pyEndsWith (pyStrip (pyDrop raw st.snippet_indent)) "::" = false)
    (hbu : pyStartsWith (pyStrip (pyDrop raw st.snippet_indent)) "-" = false)
    (hin : indentOf raw ≤ st.blockindent)
    (hne : pyStrip (pyDrop raw st.snippet_indent) ≠ "") :
    step st raw =
      { st with literal_block := false,
                out := st.out ++ ["```\n" ++ pyDrop raw st.snippet_indent ++ " "] } := by
  have hnotlt : ¬ st.blockindent < indentOf raw := Nat.not_lt.mpr hin
  have htr : pyStrip ("```\n" ++ pyDrop raw st.snippet_indent ++ " ") ≠ "" := by
    intro h
    rw [pyStrip_eq_empty_iff] at h
    have hmem : '`' ∈ ("```\n" ++ pyDrop raw st.snippet_indent ++ " ").data := by
      rw [String.data_append, String.data_append]
      exact List.mem_append.mpr (Or.inl (List.mem_append.mpr (Or.inl (by decide))))
    have := h '`' hmem
    exact absurd this (by decide)
  simp [step, branch, trailing, hmd, hlit, hq, hgg, hh1, hh2, hh3, hfc, hlb, hbu,
    hnotlt, hne, htr]

/-- An open quote block: a non-blank line that is no header, no fence line
and no `::`-line is stripped and appended with a joining space. -/
theorem step_quote (st : DocState) (raw : String)
    (hmd : st.md_code_snippet = false) (hlit : st.literal_block = false)
    (hq : st.quote_block = true)
    (hgg : pyStartsWith (pyLstrip raw) ">>>" = false)
    (hh1 : matchBlockstartList (pyLstrip raw) = false)
    (hh2 : matchBlockstartText (pyLstrip raw) = false)
    (hh3 : matchQuoteText (pyLstrip raw) = false)
    (hfc : pyStartsWith (pyStrip (pyLstrip raw)) "```" = false)
    (hlb : pyEndsWith (pyStrip (pyLstrip raw)) "::" = false)
    (hne : pyLstrip raw ≠ "") :
    step st raw = { st with out := st.out ++ [pyStrip (pyLstrip raw) ++ " "] } := by
  simp [step, branch, trailing, hmd, hlit, hq, hgg, hh1, hh2, hh3, hfc, hlb, hne]

/-- A blank line inside an open quote block: a space and a fresh block-quote
marker are appended (the quote is continued, not broken). -/
theorem step_quote_blank (st : DocState) (raw : String)
    (hmd : st.md_code_snippet = false) (hlit : st.literal_block = false)
    (hq : st.quote_block = true)
    (hbl : pyLstrip raw = "") :
    step st raw = { st with out := st.out ++ [" ", "\n>"] } := by
  have e0 : pyStartsWith "" ">>>" = false := by decide
  have e1 : matchBlockstartList "" = false := by decide
  have e2 : matchBlockstartText "" = false := by decide
  have e3 : matchQuoteText "" = false := by decide
  have e4 : pyStartsWith "" "```" = false := by decide
  have e5 : pyEndsWith "" "::" = false := by decide
  have e6 : pyStrip "" = "" := rfl
  simp [step, branch, trailing, hmd, hlit, hq, hbl, e0, e1, e2, e3, e4, e5, e6]

/-- A line whose stripped content starts with a code fence while no snippet
is open (and no earlier branch fires): fenced-code mode is switched on, the
fence line's indentation is recorded, and the fence line is emitted after a
blank separator, followed by the unconditional in-snippet newline. -/
theorem step_fence_open (st : DocState) (raw : String)
    (hmd : st.md_code_snippet = false) (hlit : st.literal_block = false)
    (hgg : pyStartsWith (pyLstrip raw) ">>>" = false)
    (hh1 : matchBlockstartList (pyLstrip raw) = false)
    (hh2 : matchBlockstartText (pyLstrip raw) = false)
    (hh3 : matchQuoteText (pyLstrip raw) = false)
    (hfc : pyStartsWith (pyStrip (pyLstrip raw)) "```" = true) :
    step st raw =
      { st with md_code_snippet := true, snippet_indent := indentOf raw,
                out := st.out ++ ["\n", pyLstrip raw, "\n"] } := by
  simp [step, branch, trailing, hmd, hlit, hgg, hh1, hh2, hh3, hfc]

/-- A line whose stripped content starts with a code fence while a snippet is
open: fenced-code mode is switched off and the (prefix-stripped) fence line
emitted verbatim. -/
theorem step_fence_close (st : DocState) (raw : String)
    (hmd : st.md_code_snippet = true)
    (hgg : pyStartsWith (pyDrop raw st.snippet_indent) ">>>" = false)
    (hh1 : matchBlockstartList (pyDrop raw st.snippet_indent) = false)
    (hh2 : matchBlockstartText (pyDrop raw st.snippet_indent) = false)
    (hh3 : matchQuoteText (pyDrop raw st.snippet_indent) = false)
    (hfc : pyStartsWith (pyStrip (pyDrop raw st.snippet_indent)) "```" = true) :
    step st raw =
      { st with md_code_snippet := false, snippet_indent := 0,
                out := st.out ++ [pyDrop raw st.snippet_indent] } := by
  have hne : pyStrip (pyDrop raw st.snippet_indent) ≠ "" := by
    intro h
    rw [h] at hfc
    exact absurd hfc (by decide)
  have hne2 : pyDrop raw st.snippet_indent ≠ "" := by
    intro h
    rw [h] at hne
    exact hne rfl
  simp [step, branch, trailing, hmd, hgg, hh1, hh2, hh3, hfc, hne, hne2]

/-- Inside an open fenced-code snippet, a line that fires no earlier branch
and is indented deeper than `blockindent` while no argument list is open:
emitted verbatim after stripping the recorded indentation prefix, followed by
the in-snippet newline. -/
theorem step_snippet_verbatim (st : DocState) (raw : String)
    (hmd : st.md_code_snippet = true) (hlit : st.literal_block = false)
    (hq : st.quote_block = false) (harg : st.arg_list = false)
    (hgg : pyStartsWith (pyDrop raw st.snippet_indent) ">>>" = false)
    (hh1 : matchBlockstartList (pyDrop raw st.snippet_indent) = false)
    (hh2 : matchBlockstartText (pyDrop raw st.snippet_indent) = false)
    (hh3 : matchQuoteText (pyDrop raw st.snippet_indent) = false)
    (hfc : pyStartsWith (pyStrip (pyDrop raw st.snippet_indent)) "```" = false)
    (hlb : pyEndsWith (pyStrip (pyDrop raw st.snippet_indent)) "::" = false)
    (hbu : pyStartsWith (pyStrip (pyDrop raw st.snippet_indent)) "-" = false)
    (hlt : st.blockindent < indentOf raw) :
    step st raw = { st with out := st.out ++ [pyDrop raw st.snippet_indent, "\n"] } := by
  simp [step, branch, trailing, hmd, hlit, hq, harg, hgg, hh1, hh2, hh3, hfc, hlb, hbu, hlt]

/-! ### Lemmas on the output assembly (`splitlines`, `rstrip`, `join`) -/

theorem dropWhile_dropWhile (p : Char → Bool) (l : List Char) :
    (l.dropWhile p).dropWhile p = l.dropWhile p := by
  cases hd : l.dropWhile p with
  | nil => rfl
  | cons c cs =>
    have hc : p c = false := by
      have := List.head?_dropWhile_not p l
      rw [hd] at this
      simpa using this
    rw [List.dropWhile_cons, hc]
    simp

theorem pyRstrip_idem (s : String) : pyRstrip (pyRstrip s) = pyRstrip s := by
  apply String.ext
  show ((((s.data.reverse.dropWhile pyIsSpace).reverse).reverse.dropWhile pyIsSpace)).reverse =
    (s.data.reverse.dropWhile pyIsSpace).reverse
  rw [List.reverse_reverse, dropWhile_dropWhile]

theorem pyRstrip_append_space (s : String) : pyRstrip (s ++ " ") = pyRstrip s := by
  apply String.ext
  show ((s ++ " ").data.reverse.dropWhile pyIsSpace).reverse = _
  rw [String.data_append]
  have h1 : (" " : String).data = [' '] := rfl
  rw [h1, List.reverse_append]
  show ((([' '].reverse) ++ s.data.reverse).dropWhile pyIsSpace).reverse = _
  have h2 : ([' '].reverse : List Char) = [' '] := rfl
  rw [h2, List.cons_append, List.dropWhile_cons, pyIsSpace_space]
  simp [pyRstrip]

theorem pyRstrip_subset (s : String) : (pyRstrip s).data ⊆ s.data := by
  intro c hc
  have : c ∈ (s.data.reverse.dropWhile pyIsSpace).reverse := hc
  rw [List.mem_reverse] at this
  have := (List.dropWhile_sublist pyIsSpace (l := s.data.reverse)).subset this
  rwa [List.mem_reverse] at this

set_option maxHeartbeats 1000000 in
theorem slAux_cons_nb (acc : List Char) (c : Char) (rest : List Char)
    (hc : isLineBoundary c = false) :
    slAux acc (c :: rest) = slAux (c :: acc) rest := by
  have hr : c ≠ '\r' := by intro he; rw [he] at hc; exact absurd hc (by decide)
  have hn : c ≠ '\n' := by intro he; rw [he] at hc; exact absurd hc (by decide)
  simp [slAux, hc, hr, hn]

theorem slAux_newline (acc : List Char) (rest : List Char) :
    slAux acc ('\n' :: rest) = ⟨acc.reverse⟩ :: slAux [] rest := by
  simp [slAux, isLineBoundary]

theorem slAux_chunk (p : List Char) (hp : ∀ c ∈ p, isLineBoundary c = false)
    (acc s : List Char) :
    slAux acc (p ++ '\n' :: s) = ⟨acc.reverse ++ p⟩ :: slAux [] s := by
  induction p generalizing acc with
  | nil => simpa using slAux_newline acc s
  | cons c cs ih =>
    have hc : isLineBoundary c = false := hp c (List.mem_cons_self c cs)
    rw [List.cons_append, slAux_cons_nb _ _ _ hc,
      ih (fun d hd => hp d (List.mem_cons_of_mem _ hd))]
    congr 2
    simp

theorem slAux_final (p : List Char) (hp : ∀ c ∈ p, isLineBoundary c = false)
    (acc : List Char) :
    slAux acc p = if (acc.reverse ++ p).isEmpty then [] else [⟨acc.reverse ++ p⟩] := by
  induction p generalizing acc with
  | nil => simp [slAux]
  | cons c cs ih =>
    have hc : isLineBoundary c = false := hp c (List.mem_cons_self c cs)
    rw [slAux_cons_nb _ _ _ hc, ih (fun d hd => hp d (List.mem_cons_of_mem _ hd))]
    simp

theorem slAux_crlf (acc rest : List Char) :
    slAux acc ('\r' :: '\n' :: rest) = ⟨acc.reverse⟩ :: slAux [] rest := by
  simp [slAux]

set_option maxHeartbeats 1000000 in
theorem slAux_cons_b (acc : List Char) (c : Char) (rest : List Char)
    (hc : isLineBoundary c = true) (h : ¬(c = '\r' ∧ rest.head? = some '\n')) :
    slAux acc (c :: rest) = ⟨acc.reverse⟩ :: slAux [] rest := by
  cases rest with
  | nil => simp [slAux, hc]
  | cons d r2 =>
    by_cases hcr : c = '\r'
    · subst hcr
      have hd : d ≠ '\n' := by
        intro hd
        exact h ⟨rfl, by rw [hd]; rfl⟩
      have hrb : isLineBoundary '\r' = true := by decide
      simp [slAux, hd, hrb]
    · simp [slAux, hc, hcr]

/-- Every string produced by the `splitlines` worker has no line-boundary
characters, provided the accumulator has none. -/
theorem slAux_mem_nb : ∀ (s acc : List Char),
    (∀ c ∈ acc, isLineBoundary c = false) →
    ∀ l ∈ slAux acc s, ∀ c ∈ l.data, isLineBoundary c = false := by
  intro s
  induction s with
  | nil =>
    intro acc hacc l hl c hc
    by_cases hae : acc.isEmpty
    · simp [slAux, hae] at hl
    · simp [slAux, hae] at hl
      subst hl
      exact hacc c (List.mem_reverse.mp hc)
  | cons d rest ih =>
    intro acc hacc l hl c hc
    by_cases hb : isLineBoundary d = true
    · by_cases hcr : d = '\r' ∧ rest.head? = some '\n'
      · obtain ⟨rfl, hh⟩ := hcr
        cases rest with
        | nil => simp at hh
        | cons e rest2 =>
          have he : e = '\n' := by simpa using hh
          subst he
          rw [slAux_crlf] at hl
          rcases List.mem_cons.mp hl with rfl | hl2
          · exact hacc c (List.mem_reverse.mp hc)
          · have hlift : l ∈ slAux [] ('\n' :: rest2) := by
              rw [slAux_newline]
              exact List.mem_cons_of_mem _ hl2
            exact ih [] (by simp) l hlift c hc
      · rw [slAux_cons_b _ _ _ hb hcr] at hl
        rcases List.mem_cons.mp hl with rfl | hl2
        · exact hacc c (List.mem_reverse.mp hc)
        · exact ih [] (by simp) l hl2 c hc
    · have hbf : isLineBoundary d = false := by simpa using hb
      rw [slAux_cons_nb _ _ _ hbf] at hl
      refine ih (d :: acc) ?_ l hl c hc
      intro x hx
      rcases List.mem_cons.mp hx with rfl | hx2
      · exact hbf
      · exact hacc x hx2

/-- Splitting a `"\n"`-join of boundary-free parts returns only those parts
(or, at a trailing boundary, the empty string). -/
theorem mem_splitlines_join (parts : List String)
    (hbf : ∀ p ∈ parts, ∀ c ∈ p.data, isLineBoundary c = false) :
    ∀ l ∈ pySplitlines (pyJoin "\n" parts), l ∈ parts ∨ l = "" := by
  induction parts with
  | nil =>
    intro l hl
    simp [pyJoin, pySplitlines, slAux] at hl
  | cons x xs ih =>
    intro l hl
    cases xs with
    | nil =>
      have hx := hbf x (List.mem_cons_self x [])
      rw [show pyJoin "\n" [x] = x from rfl] at hl
      rw [pySplitlines, slAux_final x.data hx []] at hl
      by_cases he : x.data.isEmpty
      · simp [he] at hl
      · simp [he] at hl
        subst hl
        exact Or.inl (List.mem_cons_self x [])
    | cons y ys =>
      rw [show pyJoin "\n" (x :: y :: ys) = x ++ "\n" ++ pyJoin "\n" (y :: ys) from rfl] at hl
      rw [pySplitlines] at hl
      rw [String.data_append, String.data_append] at hl
      rw [show ("\n" : String).data = ['\n'] from rfl, List.append_assoc, List.singleton_append] at hl
      rw [slAux_chunk x.data (hbf x (List.mem_cons_self x _)) []] at hl
      rcases List.mem_cons.mp hl with rfl | hl2
      · exact Or.inl (by simp)
      · rcases ih (fun p hp => hbf p (List.mem_cons_of_mem _ hp)) l hl2 with h | h
        · exact Or.inl (List.mem_cons_of_mem _ h)
        · exact Or.inr h

/-! ### The loop of `_doc2md` on marker-free lines -/

theorem indentOf_eq_zero (l : String) (h : pyLstrip l = l) : indentOf l = 0 := by
  unfold indentOf
  have hd : l.data.dropWhile pyIsSpace = l.data := congrArg String.data h
  rw [hd, Nat.sub_self]

theorem plainLineCond_empty : plainLineCond "" := by
  refine ⟨rfl, by decide, by decide, by decide, by decide, by decide, by decide, by decide⟩

theorem step_plain_cond (l : String) (acc : List String) (h : plainLineCond l) :
    step { initState with out := acc } l =
      { initState with out := acc ++ (if l = "" then [" ", "\n\n"] else [l ++ " "]) } := by
  obtain ⟨h0, h1, h2, h3, h4, h5, h6, h7⟩ := h
  have hz : indentOf l = 0 := indentOf_eq_zero l h0
  have hstep := step_plain { initState with out := acc } l rfl rfl rfl
    (by rw [h0]; exact h1) (by rw [h0]; exact h2) (by rw [h0]; exact h3)
    (by rw [h0]; exact h4) (by rw [h0]; exact h5) (by rw [h0]; exact h6)
    (by rw [h0]; exact h7) (by rw [hz]; exact Nat.zero_le _)
  rw [hstep, h0]
  by_cases hb : l = ""
  · subst hb
    simp [show pyStrip "" = "" from rfl, show pyLstrip "" = "" from rfl,
      String.empty_append]
  · have hsne : pyStrip l ≠ "" := by
      intro hh
      apply hb
      have := pyStrip_lstrip_eq_empty l (by rw [h0]; exact hh)
      rwa [h0] at this
    simp [hsne, hb]

theorem foldl_plain (lines : List String) (acc : List String)
    (H : ∀ l ∈ lines, plainLineCond l) :
    lines.foldl step { initState with out := acc } =
      { initState with out := acc ++ plainFrags lines } := by
  induction lines generalizing acc with
  | nil => simp [plainFrags]
  | cons l rest ih =>
    rw [List.foldl_cons, step_plain_cond l acc (H l (List.mem_cons_self _ _)),
      ih _ (fun x hx => H x (List.mem_cons_of_mem _ hx))]
    simp [plainFrags, List.append_assoc]

/-! ### Assembling the output for blank-line-separated paragraphs -/

theorem pyJoin_cons_ne (sep x : String) (ys : List String) (h : ys ≠ []) :
    pyJoin sep (x :: ys) = x ++ sep ++ pyJoin sep ys := by
  cases ys with
  | nil => exact absurd rfl h
  | cons y ys2 => rfl

theorem plainFrags_append (a b : List String) :
    plainFrags (a ++ b) = plainFrags a ++ plainFrags b := by
  induction a with
  | nil => simp [plainFrags]
  | cons l rest ih => simp [plainFrags, ih, List.append_assoc]

theorem plainFrags_nonblank (p : List String) (h : ∀ l ∈ p, l ≠ "") :
    plainFrags p = p.map (· ++ " ") := by
  induction p with
  | nil => simp [plainFrags]
  | cons l rest ih =>
    have hl : l ≠ "" := h l (List.mem_cons_self _ _)
    simp [plainFrags, hl, ih (fun x hx => h x (List.mem_cons_of_mem _ hx))]

theorem join_map_space (p : List String) (h : p ≠ []) :
    pyJoin "" (p.map (· ++ " ")) = pyJoin " " p ++ " " := by
  induction p with
  | nil => exact absurd rfl h
  | cons x rest ih =>
    cases rest with
    | nil => simp [pyJoin]
    | cons y ys =>
      rw [List.map_cons,
        pyJoin_cons_ne "" (x ++ " ") (((y :: ys).map (· ++ " "))) (by simp),
        ih (by simp),
        pyJoin_cons_ne " " x (y :: ys) (by simp)]
      apply String.ext
      simp [String.data_append]

theorem pyJoin_empty_nb (xs : List String)
    (h : ∀ x ∈ xs, ∀ c ∈ x.data, isLineBoundary c = false) :
    ∀ c ∈ (pyJoin "" xs).data, isLineBoundary c = false := by
  induction xs with
  | nil => intro c hc; simp [pyJoin] at hc
  | cons x rest ih =>
    intro c hc
    cases rest with
    | nil => exact h x (List.mem_cons_self _ _) c hc
    | cons y ys =>
      rw [pyJoin_cons_ne "" x (y :: ys) (by simp), String.data_append, String.data_append] at hc
      rcases List.mem_append.mp hc with hc1 | hc2
      · rcases List.mem_append.mp hc1 with hc3 | hc4
        · exact h x (List.mem_cons_self _ _) c hc3
        · simp [show ("" : String).data = [] from rfl] at hc4
      · exact ih (fun z hz => h z (List.mem_cons_of_mem _ hz)) c hc2

theorem pyJoin_empty_append (xs ys : List String) :
    pyJoin "" (xs ++ ys) = pyJoin "" xs ++ pyJoin "" ys := by
  induction xs with
  | nil => simp [pyJoin, String.empty_append]
  | cons x xs ih =>
    by_cases hxy : xs ++ ys = []
    · have hx : xs = [] := (List.append_eq_nil.mp hxy).1
      have hy : ys = [] := (List.append_eq_nil.mp hxy).2
      subst hx; subst hy
      simp [pyJoin, String.append_empty]
    · rw [List.cons_append, pyJoin_cons_ne "" x (xs ++ ys) hxy, ih]
      cases xs with
      | nil =>
        apply String.ext
        simp [pyJoin, String.data_append]
      | cons x2 xs2 =>
        rw [pyJoin_cons_ne "" x (x2 :: xs2) (by simp)]
        apply String.ext
        simp [String.data_append]

theorem rstripParLines_ne_nil (q : List String) (rest : List (List String)) :
    rstripParLines (q :: rest) ≠ [] := by
  cases rest <;> simp [rstripParLines]

theorem pyJoin_rstripParLines (pars : List (List String)) :
    pyJoin "\n" (rstripParLines pars) =
      pyJoin "\n\n" (pars.map fun p => pyRstrip (pyJoin " " p)) := by
  induction pars with
  | nil => rfl
  | cons p pars2 ih =>
    cases pars2 with
    | nil => rfl
    | cons q rest =>
      rw [show rstripParLines (p :: q :: rest) =
            pyRstrip (pyJoin " " p) :: "" :: rstripParLines (q :: rest) from rfl,
        pyJoin_cons_ne "\n" _ ("" :: rstripParLines (q :: rest)) (by simp),
        pyJoin_cons_ne "\n" "" (rstripParLines (q :: rest)) (rstripParLines_ne_nil q rest),
        ih]
      simp only [List.map_cons]
      rw [pyJoin_cons_ne "\n\n" _
        (pyRstrip (pyJoin " " q) :: rest.map (fun r => pyRstrip (pyJoin " " r))) (by simp)]
      apply String.ext
      simp [String.data_append, show ("\n" : String).data = ['\n'] from rfl,
        show ("\n\n" : String).data = ['\n', '\n'] from rfl,
        show ("" : String).data = [] from rfl]

theorem map_space_nb (p : List String)
    (h : ∀ l ∈ p, ∀ c ∈ l.data, isLineBoundary c = false) :
    ∀ x ∈ p.map (· ++ " "), ∀ c ∈ x.data, isLineBoundary c = false := by
  intro x hx c hc
  obtain ⟨l, hl, rfl⟩ := List.mem_map.mp hx
  rw [String.data_append] at hc
  rcases List.mem_append.mp hc with hc1 | hc2
  · exact h l hl c hc1
  · have : c = ' ' := by
      have hd : (" " : String).data = [' '] := rfl
      rw [hd, List.mem_singleton] at hc2
      exact hc2
    subst this
    decide

theorem splitlines_parFrags : ∀ (pars : List (List String)),
    (∀ par ∈ pars, par ≠ [] ∧ ∀ l ∈ par, l ≠ "" ∧ ∀ c ∈ l.data, isLineBoundary c = false) →
    (pySplitlines (pyJoin "" (plainFrags (parLines pars)))).map pyRstrip =
      rstripParLines pars := by
  intro pars
  induction pars with
  | nil =>
    intro _
    simp [parLines, plainFrags, pyJoin, rstripParLines, pySplitlines,
      show ("" : String).data = [] from rfl, slAux]
  | cons p pars2 ih =>
    intro H
    obtain ⟨hpne, hpl⟩ := H p (List.mem_cons_self _ _)
    have hnb : ∀ l ∈ p, l ≠ "" := fun l hl => (hpl l hl).1
    have hbfl : ∀ l ∈ p, ∀ c ∈ l.data, isLineBoundary c = false := fun l hl => (hpl l hl).2
    have hbfC : ∀ c ∈ (pyJoin "" (p.map (· ++ " "))).data, isLineBoundary c = false :=
      pyJoin_empty_nb _ (map_space_nb p hbfl)
    cases pars2 with
    | nil =>
      rw [show parLines [p] = p from rfl, plainFrags_nonblank p hnb]
      rw [join_map_space p hpne] at hbfC ⊢
      have hne : ((pyJoin " " p ++ " ").data).isEmpty = false := by
        rw [String.data_append, show (" " : String).data = [' '] from rfl]
        simp
      rw [pySplitlines, slAux_final _ hbfC []]
      simp only [List.reverse_nil, List.nil_append, hne]
      rw [show rstripParLines [p] = [pyRstrip (pyJoin " " p)] from rfl]
      simp only [Bool.false_eq_true, if_false, List.map_cons, List.map_nil]
      congr 1
      have : (⟨(pyJoin " " p ++ " ").data⟩ : String) = pyJoin " " p ++ " " := rfl
      rw [this, pyRstrip_append_space]
    | cons q rest =>
      rw [show parLines (p :: q :: rest) = p ++ [""] ++ parLines (q :: rest) from rfl,
        plainFrags_append, plainFrags_append, pyJoin_empty_append, pyJoin_empty_append,
        plainFrags_nonblank p hnb,
        show plainFrags [""] = [" ", "\n\n"] from rfl,
        show pyJoin "" [" ", "\n\n"] = " \n\n" from rfl]
      rw [pySplitlines]
      rw [String.data_append, String.data_append,
        show (" \n\n" : String).data = [' ', '\n', '\n'] from rfl]
      rw [show ((pyJoin "" (p.map (· ++ " "))).data ++ [' ', '\n', '\n']) ++
            (pyJoin "" (plainFrags (parLines (q :: rest)))).data =
          ((pyJoin "" (p.map (· ++ " "))).data ++ [' ']) ++
            '\n' :: ('\n' :: (pyJoin "" (plainFrags (parLines (q :: rest)))).data)
          by simp [List.append_assoc]]
      have hbfch : ∀ c ∈ (pyJoin "" (p.map (· ++ " "))).data ++ [' '],
          isLineBoundary c = false := by
        intro c hc
        rcases List.mem_append.mp hc with hc1 | hc2
        · exact hbfC c hc1
        · rw [List.mem_singleton] at hc2
          subst hc2
          decide
      rw [slAux_chunk _ hbfch [], slAux_newline]
      simp only [List.reverse_nil, List.nil_append, List.map_cons]
      rw [show pySplitlines (pyJoin "" (plainFrags (parLines (q :: rest)))) =
            slAux [] (pyJoin "" (plainFrags (parLines (q :: rest)))).data from rfl] at ih
      rw [ih (fun par hpar => H par (List.mem_cons_of_mem _ hpar))]
      rw [show rstripParLines (p :: q :: rest) =
            pyRstrip (pyJoin " " p) :: "" :: rstripParLines (q :: rest) from rfl]
      congr 1
      · have heq : (⟨(pyJoin "" (p.map (· ++ " "))).data ++ [' ']⟩ : String) =
            pyJoin "" (p.map (· ++ " ")) ++ " " := rfl
        rw [heq, pyRstrip_append_space, join_map_space p hpne, pyRstrip_append_space]

theorem mem_parLines : ∀ (pars : List (List String)) (l : String),
    l ∈ parLines pars → l = "" ∨ ∃ par, par ∈ pars ∧ l ∈ par := by
  intro pars
  induction pars with
  | nil => intro l hl; simp [parLines] at hl
  | cons p pars2 ih =>
    intro l hl
    cases pars2 with
    | nil => exact Or.inr ⟨p, List.mem_cons_self _ _, hl⟩
    | cons q rest =>
      rw [show parLines (p :: q :: rest) = p ++ [""] ++ parLines (q :: rest) from rfl] at hl
      rcases List.mem_append.mp hl with h1 | h2
      · rcases List.mem_append.mp h1 with h3 | h4
        · exact Or.inr ⟨p, List.mem_cons_self _ _, h3⟩
        · exact Or.inl (by simpa using h4)
      · rcases ih l h2 with h | ⟨par, hpar, hlpar⟩
        · exact Or.inl h
        · exact Or.inr ⟨par, List.mem_cons_of_mem _ hpar, hlpar⟩

/-! ## The claims -/

/-- C10: on the empty docstring the transpiler returns the single-newline
string `"\n"`; in particular the result is non-empty (truthy), so an object
with an empty docstring still yields documentation text. -/
theorem C10_empty_docstring : doc2md "" = "\n" ∧ doc2md "" ≠ "" := by
  decide

/-- C9: the transpiler is deterministic — it is a pure function of the
docstring text (the embedding, like the source, reads no state besides its
input and the constant regexes, and builds its parse state afresh per call),
so invocations on equal inputs yield byte-identical output. -/
theorem C9_deterministic (d1 d2 : String) (h : d1 = d2) : doc2md d1 = doc2md d2 :=
  congrArg doc2md h

/-- C9 witness: two invocations on the same concrete input agree. -/
theorem C9_deterministic_witness :
    doc2md "Args:\n    x (int): the value" = doc2md "Args:\n    x (int): the value" :=
  C9_deterministic "Args:\n    x (int): the value" "Args:\n    x (int): the value" rfl

/-- C2 counterexample: the claim predicts that a marker-free input passes
through with lines right-trimmed, i.e. `doc2md "a\nb" = "a\nb"`.  In fact
consecutive non-blank lines are joined into one output line by the forced
trailing space (`"a b"`), and indented lines are left-stripped and joined
with no separator at all (`"a\n  b\n  c"` becomes `"a bc"`). -/
theorem C2_counterexample :
    doc2md "a\nb" = "a b" ∧ "a b" ≠ "a\nb" ∧ doc2md "a\n  b\n  c" = "a bc" := by
  decide

/-- C2 (amended): for an input made of paragraphs of unindented, marker-free,
non-blank lines (no section header, no fence, no trailing `::`, no `>>>`, no
leading `-`), separated by single blank lines, the output is each paragraph
joined into one line by single spaces and right-trimmed, with consecutive
paragraphs separated by a double newline.  Blank lines become the paragraph
breaks; within a paragraph the physical line structure is not preserved. -/
theorem C2_plain_paragraphs (pars : List (List String))
    (H : ∀ par ∈ pars, par ≠ [] ∧ ∀ l ∈ par, plainLineCond l ∧ l ≠ "" ∧
      ∀ c ∈ l.data, isLineBoundary c = false) :
    doc2mdLines (parLines pars) =
      pyJoin "\n\n" (pars.map fun par => pyRstrip (pyJoin " " par)) := by
  have Hplain : ∀ l ∈ parLines pars, plainLineCond l := by
    intro l hl
    rcases mem_parLines pars l hl with rfl | ⟨par, hpar, hlp⟩
    · exact plainLineCond_empty
    · exact ((H par hpar).2 l hlp).1
  have hfold := foldl_plain (parLines pars) [] Hplain
  rw [show ({ initState with out := ([] : List String) } : DocState) = initState from rfl]
    at hfold
  unfold doc2mdLines
  rw [hfold]
  show finishOut ([] ++ plainFrags (parLines pars)) = _
  rw [List.nil_append]
  unfold finishOut
  rw [show (pySplitlines (pyJoin "" (plainFrags (parLines pars)))).map pyRstrip =
        rstripParLines pars from
      splitlines_parFrags pars
        (fun par hpar => ⟨(H par hpar).1,
          fun l hl => ⟨((H par hpar).2 l hl).2.1, ((H par hpar).2 l hl).2.2⟩⟩),
    pyJoin_rstripParLines]

/-- C2 witness: two concrete paragraphs. -/
theorem C2_plain_paragraphs_witness :
    (∀ par ∈ [["ab", "cd"], ["ef"]], par ≠ [] ∧ ∀ l ∈ par, plainLineCond l ∧ l ≠ "" ∧
      ∀ c ∈ l.data, isLineBoundary c = false) ∧
    doc2mdLines (parLines [["ab", "cd"], ["ef"]]) = "ab cd\n\nef" :=
  ⟨by decide, C2_plain_paragraphs [["ab", "cd"], ["ef"]] (by decide)⟩

/-- C1 counterexample: the transpiler does not emit the bullets
`- **x** (int): the value` / `- **x**: the value` the claim states.  The
actual bullets bold the name as ``<b>`x`</b>``, are indented one space after
a leading `-` marker built from `" " * blockindent + " - "`, and carry two
spaces after the colon (the regex keeps the description's leading space and
the template adds its own). -/
theorem C1_counterexample :
    doc2md "Args:\n    x (int): the value" =
      "\n\n**Args:**\n\n - <b>`x`</b> (int):  the value" ∧
    hasSubstr (doc2md "Args:\n    x (int): the value") "- **x** (int): the value" = false ∧
    doc2md "Args:\n    x: the value" = "\n\n**Args:**\n\n - <b>`x`</b>:  the value" ∧
    hasSubstr (doc2md "Args:\n    x: the value") "- **x**: the value" = false := by
  decide

/-- C1 (amended): a list-style header line followed by an argument line
indented by any positive amount transpiles to the bolded heading `**Args:**`
followed, for the typed line `x (int): the value`, by the bullet
`` - <b>`x`</b> (int):  the value`` and, for the bare line `x: the value`,
by `` - <b>`x`</b>:  the value``. -/
theorem C1_arg_bullets (i : Nat) (hi : 0 < i) :
    doc2mdLines ["Args:", spaces i ++ "x (int): the value"] =
      "\n\n**Args:**\n\n - <b>`x`</b> (int):  the value" ∧
    doc2mdLines ["Args:", spaces i ++ "x: the value"] =
      "\n\n**Args:**\n\n - <b>`x`</b>:  the value" := by
  have hH : step initState "Args:" =
      ⟨0, 1, ["\n\n**Args:**\n"], true, false, false, false, 0⟩ := by decide
  constructor
  · have h0 : pyLstrip (spaces i ++ "x (int): the value") = "x (int): the value" := by
      rw [pyLstrip_spaces_append]; decide
    have hIo : indentOf (spaces i ++ "x (int): the value") = i := by
      rw [indentOf_spaces_append, show indentOf "x (int): the value" = 0 from rfl,
        Nat.add_zero]
    show finishOut
        (step (step initState "Args:") (spaces i ++ "x (int): the value")).out = _
    rw [hH, step_arg_typed _ _ rfl rfl rfl rfl
      (by rw [h0]; decide) (by rw [h0]; decide) (by rw [h0]; decide) (by rw [h0]; decide)
      (by rw [h0]; decide) (by rw [h0]; decide) (by rw [h0]; decide)
      (by rw [hIo]; exact hi) (by rw [h0]; decide) (by rw [h0]; decide), h0]
    show finishOut (["\n\n**Args:**\n"] ++
        ["\n" ++ spaces 0 ++ " - " ++ typedArgSub "x (int): the value"]) =
      "\n\n**Args:**\n\n - <b>`x`</b> (int):  the value"
    decide
  · have h0 : pyLstrip (spaces i ++ "x: the value") = "x: the value" := by
      rw [pyLstrip_spaces_append]; decide
    have hIo : indentOf (spaces i ++ "x: the value") = i := by
      rw [indentOf_spaces_append, show indentOf "x: the value" = 0 from rfl,
        Nat.add_zero]
    show finishOut
        (step (step initState "Args:") (spaces i ++ "x: the value")).out = _
    rw [hH, step_arg_bare _ _ rfl rfl rfl rfl
      (by rw [h0]; decide) (by rw [h0]; decide) (by rw [h0]; decide) (by rw [h0]; decide)
      (by rw [h0]; decide) (by rw [h0]; decide) (by rw [h0]; decide)
      (by rw [hIo]; exact hi) (by rw [h0]; decide) (by rw [h0]; decide) (by rw [h0]; decide),
      h0]
    show finishOut (["\n\n**Args:**\n"] ++
        ["\n" ++ spaces 0 ++ " - " ++ argStartSub "x: the value"]) =
      "\n\n**Args:**\n\n - <b>`x`</b>:  the value"
    decide

/-- C1 witness: the standard four-space indentation. -/
theorem C1_arg_bullets_witness :
    0 < 4 ∧ doc2mdLines ["Args:", spaces 4 ++ "x (int): the value"] =
      "\n\n**Args:**\n\n - <b>`x`</b> (int):  the value" :=
  ⟨by decide, (C1_arg_bullets 4 (by decide)).1⟩

/-- C3 counterexample: a doctest line is not a single-line-scoped rewrite.
The rewritten line starts with a fence, so it switches fenced-code mode on:
after `">>> x"`, the lines `a` and `b` are emitted verbatim on their own
lines (never space-joined as plain text would be), and the state records an
open snippet. -/
theorem C3_counterexample :
    doc2md ">>> x\na\nb" = "\n``` x```\na\nb" ∧
    hasSubstr (doc2md ">>> x\na\nb") "a b" = false ∧
    (step initState ">>> x").md_code_snippet = true := by
  decide

/-- C3 (amended): a line starting with `>>>` is rewritten by replacing every
`>>>` occurrence with a code fence and appending a closing fence to the same
fragment — but the rewritten line then takes the fence branch, so it toggles
fenced-code mode on and does change how subsequent lines are processed: they
are handled in fenced-code mode until a later fence or doctest line toggles
the mode off again, and even inside the snippet the earlier classifier
branches still fire, so a section-header line like `Args:` is transformed
into a bolded heading rather than emitted verbatim.  The four conjuncts:
the rewrite-and-toggle of the `>>>` line from any state outside a snippet
or literal block; a second doctest line toggles the mode off; subsequent
plain lines are processed in snippet mode (kept on their own lines, never
space-joined as plain text would be); a header inside the doctest-opened
snippet is still transformed. -/
theorem C3_doctest_toggles (st : DocState) (hmd : st.md_code_snippet = false)
    (hlit : st.literal_block = false) :
    step st ">>> x" = { st with md_code_snippet := true, snippet_indent := 0,
                                out := st.out ++ ["\n", "``` x```", "\n"] } ∧
    (step (step initState ">>> x") ">>> y").md_code_snippet = false ∧
    doc2md ">>> x\na\nb" = "\n``` x```\na\nb" ∧
    doc2md ">>> x\nArgs:\ny" = "\n``` x```\n\n\n**Args:**\n\ny" := by
  refine ⟨?_, by decide, by decide, by decide⟩
  have e1 : pyLstrip ">>> x" = ">>> x" := by decide
  have e2 : pyStartsWith ">>> x" ">>>" = true := by decide
  have e3 : replaceDoctest ">>> x" ++ "```" = "``` x```" := by decide
  have e4 : matchBlockstartList "``` x```" = false := by decide
  have e5 : matchBlockstartText "``` x```" = false := by decide
  have e6 : matchQuoteText "``` x```" = false := by decide
  have e7 : pyStartsWith (pyStrip "``` x```") "```" = true := by decide
  have e8 : indentOf ">>> x" = 0 := by decide
  simp [step, branch, trailing, hmd, hlit, e1, e2, e3, e4, e5, e6, e7, e8]

/-- C3 witness: the doctest line from the initial state. -/
theorem C3_doctest_toggles_witness :
    initState.md_code_snippet = false ∧
    step initState ">>> x" =
      { initState with md_code_snippet := true, snippet_indent := 0,
                       out := initState.out ++ ["\n", "``` x```", "\n"] } :=
  ⟨rfl, (C3_doctest_toggles initState rfl rfl).1⟩

/-- C4 counterexample: after `"x::"` opens a literal block, the bullet line
`"- y"` at lesser-or-equal indentation is passed through by the bullet branch
with no closing fence (the output keeps exactly the three backticks of the
opening fence). -/
theorem C4_counterexample :
    doc2md "x::\n- y" = "x:\n```\n- y" ∧
    (doc2md "x::\n- y").data.count '`' = 3 := by
  decide

/-- C4 (amended): a (non-header, non-fence) line whose stripped content ends
in `::` rewrites every `::` to `:` plus an opening fence and opens a literal
block; the first subsequent non-blank line at indentation ≤ `blockindent`
that falls through to the default text branch (in particular: no bullet, no
header, no fence, no doctest marker) has a closing fence prefixed to it. -/
theorem C4_literal_block (st : DocState) (raw : String)
    (hmd : st.md_code_snippet = false) (hlit : st.literal_block = true)
    (hq : st.quote_block = false)
    (hgg : pyStartsWith (pyDrop raw st.snippet_indent) ">>>" = false)
    (hh1 : matchBlockstartList (pyDrop raw st.snippet_indent) = false)
    (hh2 : matchBlockstartText (pyDrop raw st.snippet_indent) = false)
    (hh3 : matchQuoteText (pyDrop raw st.snippet_indent) = false)
    (hfc : pyStartsWith (pyStrip (pyDrop raw st.snippet_indent)) "```" = false)
    (hlb : pyEndsWith (pyStrip (pyDrop raw st.snippet_indent)) "::" = false)
    (hbu : pyStartsWith (pyStrip (pyDrop raw st.snippet_indent)) "-" = false)
    (hin : indentOf raw ≤ st.blockindent)
    (hne : pyStrip (pyDrop raw st.snippet_indent) ≠ "") :
    step st raw =
      { st with literal_block := false,
                out := st.out ++ ["```\n" ++ pyDrop raw st.snippet_indent ++ " "] } ∧
    step initState "x::" = { initState with literal_block := true, out := ["x:\n```"] } ∧
    doc2md "x::\n\n   code\n\ny" = "x:\n```\n\n   code\n\n```\ny" :=
  ⟨step_literal_close st raw hmd hlit hq hgg hh1 hh2 hh3 hfc hlb hbu hin hne,
   by decide, by decide⟩

/-- C4 witness: the plain line `"y"` closes an open literal block. -/
theorem C4_literal_block_witness :
    pyStrip (pyDrop "y" 0) ≠ "" ∧
    step ⟨0, 1, [], false, true, false, false, 0⟩ "y" =
      ⟨0, 1, ["```\ny "], false, false, false, false, 0⟩ :=
  ⟨by decide,
   (C4_literal_block ⟨0, 1, [], false, true, false, false, 0⟩ "y" rfl rfl rfl
      (by decide) (by decide) (by decide) (by decide) (by decide) (by decide) (by decide)
      (by decide) (by decide)).1⟩

/-- C5 counterexample: content inside an explicit fence is not preserved
verbatim — a line matching a section header is still classified as a header:
inside ```` ``` ```` fences the line `Args:` is emitted as the bolded heading
`**Args:**` with blank lines around it, and the verbatim line never occurs. -/
theorem C5_counterexample :
    doc2md "```\nArgs:\n```" = "\n```\n\n\n**Args:**\n\n```" ∧
    hasSubstr (doc2md "```\nArgs:\n```") "\nArgs:" = false := by
  decide

/-- C5 (amended): triple-backtick lines toggle fenced-code mode on and off,
the opening fence's indentation width is stripped as a character prefix from
every subsequent line, and content is preserved verbatim with single-newline
separation for lines that fire no earlier classifier branch (headers,
doctest lines, `::`-lines and bullets are still transformed even inside the
fence). -/
theorem C5_fenced_code (st : DocState) (raw : String)
    (hmd : st.md_code_snippet = true) (hlit : st.literal_block = false)
    (hq : st.quote_block = false) (harg : st.arg_list = false)
    (hgg : pyStartsWith (pyDrop raw st.snippet_indent) ">>>" = false)
    (hh1 : matchBlockstartList (pyDrop raw st.snippet_indent) = false)
    (hh2 : matchBlockstartText (pyDrop raw st.snippet_indent) = false)
    (hh3 : matchQuoteText (pyDrop raw st.snippet_indent) = false)
    (hfc : pyStartsWith (pyStrip (pyDrop raw st.snippet_indent)) "```" = false)
    (hlb : pyEndsWith (pyStrip (pyDrop raw st.snippet_indent)) "::" = false)
    (hbu : pyStartsWith (pyStrip (pyDrop raw st.snippet_indent)) "-" = false)
    (hlt : st.blockindent < indentOf raw) :
    step st raw = { st with out := st.out ++ [pyDrop raw st.snippet_indent, "\n"] } ∧
    (step initState "```").md_code_snippet = true ∧
    (step (step initState "```") "```").md_code_snippet = false ∧
    doc2md "  ```\n  code x\n  ```" = "\n```\ncode x\n```" :=
  ⟨step_snippet_verbatim st raw hmd hlit hq harg hgg hh1 hh2 hh3 hfc hlb hbu hlt,
   by decide, by decide, by decide⟩

/-- C5 witness: a content line under a fence whose opening was indented by
two columns. -/
theorem C5_fenced_code_witness :
    (0 : Nat) < indentOf "  code x" ∧
    step ⟨0, 1, [], false, false, true, false, 2⟩ "  code x" =
      ⟨0, 1, ["code x", "\n"], false, false, true, false, 2⟩ :=
  ⟨by decide,
   (C5_fenced_code ⟨0, 1, [], false, false, true, false, 2⟩ "  code x" rfl rfl rfl rfl
      (by decide) (by decide) (by decide) (by decide) (by decide) (by decide) (by decide)
      (by decide)).1⟩

/-- C6 counterexample: inside a `Note:` quote block, a line whose stripped
content ends in `::` is not folded into the quoted paragraph — the literal
branch fires first and rewrites it to `foo:` plus an opening fence. -/
theorem C6_counterexample :
    doc2md "Note:\nfoo::\nbar" = "\n\n**Note:**\n\n>foo:\n```bar" ∧
    hasSubstr (doc2md "Note:\nfoo::\nbar") "foo:: bar" = false := by
  decide

/-- C6 (amended): after a `Notes:`/`Note:` header opens a block-quote, every
subsequent non-blank line that is not itself a header, a fence line or a
`::`-line is stripped and space-joined into the quoted paragraph; a blank
line continues the quote on a fresh `>` marker instead of breaking it. -/
theorem C6_quote_block (st : DocState) (raw : String)
    (hmd : st.md_code_snippet = false) (hlit : st.literal_block = false)
    (hq : st.quote_block = true)
    (hgg : pyStartsWith (pyLstrip raw) ">>>" = false)
    (hh1 : matchBlockstartList (pyLstrip raw) = false)
    (hh2 : matchBlockstartText (pyLstrip raw) = false)
    (hh3 : matchQuoteText (pyLstrip raw) = false)
    (hfc : pyStartsWith (pyStrip (pyLstrip raw)) "```" = false)
    (hlb : pyEndsWith (pyStrip (pyLstrip raw)) "::" = false)
    (hne : pyLstrip raw ≠ "") :
    step st raw = { st with out := st.out ++ [pyStrip (pyLstrip raw) ++ " "] } ∧
    doc2md "Note:\nfoo\nbar baz" = "\n\n**Note:**\n\n>foo bar baz" ∧
    doc2md "Note:\na\n\nb" = "\n\n**Note:**\n\n>a\n>b" :=
  ⟨step_quote st raw hmd hlit hq hgg hh1 hh2 hh3 hfc hlb hne, by decide, by decide⟩

/-- C6 witness: a plain content line inside an open quote block. -/
theorem C6_quote_block_witness :
    pyLstrip "foo" ≠ "" ∧
    step ⟨0, 1, [], false, false, false, true, 0⟩ "foo" =
      ⟨0, 1, ["foo "], false, false, false, true, 0⟩ :=
  ⟨by decide,
   (C6_quote_block ⟨0, 1, [], false, false, false, true, 0⟩ "foo" rfl rfl rfl
      (by decide) (by decide) (by decide) (by decide) (by decide) (by decide)
      (by decide)).1⟩

/-- C7 counterexample: a deeper-indented continuation line starting with `-`
is captured by the bullet branch, emitted on its own line with its original
indentation, and never appended to the previous argument's bullet. -/
theorem C7_counterexample :
    doc2md "Args:\n    a (int): first\n        - deeper" =
      "\n\n**Args:**\n\n - <b>`a`</b> (int):  first\n        - deeper" ∧
    hasSubstr (doc2md "Args:\n    a (int): first\n        - deeper") "first - deeper"
      = false := by
  decide

/-- C7 (amended): inside an open argument list, a non-blank line indented
strictly deeper than both `blockindent` and the current argument's own
indentation, matching neither argument pattern and none of the earlier
branches (no header, fence, `::`, doctest, or leading `-`), is appended
space-prefixed to the output with no new bullet. -/
theorem C7_continuation (st : DocState) (raw : String)
    (hmd : st.md_code_snippet = false) (hlit : st.literal_block = false)
    (hq : st.quote_block = false) (harg : st.arg_list = true)
    (hgg : pyStartsWith (pyLstrip raw) ">>>" = false)
    (hh1 : matchBlockstartList (pyLstrip raw) = false)
    (hh2 : matchBlockstartText (pyLstrip raw) = false)
    (hh3 : matchQuoteText (pyLstrip raw) = false)
    (hfc : pyStartsWith (pyStrip (pyLstrip raw)) "```" = false)
    (hlb : pyEndsWith (pyStrip (pyLstrip raw)) "::" = false)
    (hbu : pyStartsWith (pyStrip (pyLstrip raw)) "-" = false)
    (hlt : st.blockindent < indentOf raw)
    (hty : typedArgMatch (pyLstrip raw) = none)
    (hba : argStartMatch (pyLstrip raw) = none)
    (hai : st.argindent < indentOf raw)
    (hne : pyStrip (pyLstrip raw) ≠ "") :
    step st raw = { st with out := st.out ++ [" " ++ pyLstrip raw] } ∧
    doc2md "Args:\n    a (int): first\n    b: second\n    c (str): third, spanning\n        two lines." =
      "\n\n**Args:**\n\n - <b>`a`</b> (int):  first\n - <b>`b`</b>:  second\n - <b>`c`</b> (str):  third, spanning two lines." :=
  ⟨step_arg_continuation st raw hmd hlit hq harg hgg hh1 hh2 hh3 hfc hlb hbu hlt hty hba
      hai hne,
   by decide⟩

/-- C7 witness: the spec's own end-to-end scenario's continuation line. -/
theorem C7_continuation_witness :
    (4 : Nat) < indentOf "        two lines." ∧
    step ⟨0, 4, [], true, false, false, false, 0⟩ "        two lines." =
      ⟨0, 4, [" two lines."], true, false, false, false, 0⟩ :=
  ⟨by decide,
   (C7_continuation ⟨0, 4, [], true, false, false, false, 0⟩ "        two lines."
      rfl rfl rfl rfl (by decide) (by decide) (by decide) (by decide) (by decide)
      (by decide) (by decide) (by decide) (by decide) (by decide) (by decide)
      (by decide)).1⟩

/-- C8: every line of the transpiler's final output is right-strip-fixed —
it ends in a non-whitespace character or is empty — while the final step
never touches leading whitespace, so indentation inside emitted code fences
survives (demonstrated on a fenced block with an indented content line). -/
theorem C8_rstrip_invariant :
    (∀ doc : String, ∀ l ∈ pySplitlines (doc2md doc), pyRstrip l = l) ∧
    doc2md "```\n  indented\n```" = "\n```\n  indented\n```" := by
  constructor
  · intro doc l hl
    have hX : doc2md doc = pyJoin "\n"
        ((pySplitlines (pyJoin "" ((pySplitNl doc).foldl step initState).out)).map
          pyRstrip) := rfl
    rw [hX] at hl
    have hbf : ∀ p ∈ (pySplitlines
          (pyJoin "" ((pySplitNl doc).foldl step initState).out)).map pyRstrip,
        ∀ c ∈ p.data, isLineBoundary c = false := by
      intro p hp c hc
      obtain ⟨q, hq, rfl⟩ := List.mem_map.mp hp
      exact slAux_mem_nb _ [] (by simp) q hq c (pyRstrip_subset q hc)
    rcases mem_splitlines_join _ hbf l hl with h | h
    · obtain ⟨q, hq, rfl⟩ := List.mem_map.mp h
      exact pyRstrip_idem q
    · rw [h]
      rfl
  · decide

/-- C8 witness: a line of the output of a concrete docstring. -/
theorem C8_rstrip_invariant_witness :
    "a" ∈ pySplitlines (doc2md "a\n\nb") ∧ pyRstrip "a" = "a" :=
  ⟨by decide, C8_rstrip_invariant.1 "a\n\nb" "a" (by decide)⟩
